import Mathlib

/-!
Verification development for the RAG chatbot backend.

This file shallowly embeds the multi-round tool-orchestration loop of
`backend/ai_generator.py` (class `AIGenerator`) and the retrieval tools of
`ragchatbot/backend/search_tools.py` (`CourseSearchTool`, `CourseOutlineTool`,
`ToolManager`), and proves properties of the embedded program.

Modelling conventions:
- The Anthropic client is an oracle `ModelClient : Nat → ModelOutcome` giving
  the outcome (response or raised exception) of the i-th `messages.create`
  call of one query; the embedding records, per call, whether tool schemas
  were attached, and records every executed tool invocation.
- A Python exception is an explicit `exn`/`raised`/`Except.error` value.
- Python truthiness of an optional string/integer is modelled explicitly
  (None, `""` and `0` are falsy).
-/

/-- A content block of a model response: plain text, or a tool-use request
carrying the tool name, its input (opaque here) and a request id. -/
inductive ContentBlock where
  | text (s : String)
  | toolUse (name : String) (input : String) (id : String)
deriving Repr, DecidableEq

/-- A model response: a stop reason tag plus an ordered list of content
blocks, mirroring the Anthropic response object as used by the code. -/
structure ModelResponse where
  stop_reason : String
  content : List ContentBlock
deriving Repr, DecidableEq

/-- Outcome of one `client.messages.create` call: a response, or a raised
exception carrying `str(e)`. -/
inductive ModelOutcome where
  | ok (r : ModelResponse)
  | exn (msg : String)
deriving Repr, DecidableEq

/-- The model provider as an oracle over the call index within one query. -/
abbrev ModelClient := Nat → ModelOutcome

/-- Outcome of `tool_manager.execute_tool(name, **input)`: a result string,
or a raised exception carrying `str(e)`. -/
inductive ExecOutcome where
  | ok (s : String)
  | exn (msg : String)
deriving Repr, DecidableEq

/-- The tool manager's `execute_tool`, as seen by the orchestration loop. -/
abbrev ToolExec := String → String → ExecOutcome

/-- One `tool_result` entry built by the loop. -/
structure ToolResult where
  tool_use_id : String
  content : String
deriving Repr, DecidableEq

/-- Content of a conversation message. -/
inductive MessageContent where
  | text (s : String)
  | blocks (bs : List ContentBlock)
  | toolResults (rs : List ToolResult)
deriving Repr, DecidableEq

/-- One conversation turn. -/
structure Message where
  role : String
  content : MessageContent
deriving Repr, DecidableEq

/-- Observable trace of one query: for every model call, whether tool
schemas were attached, and the (name, input) of every tool invocation
actually executed, in execution order. -/
structure Trace where
  modelCalls : List Bool
  toolCalls : List (String × String)
deriving Repr, DecidableEq

/-- Result of the top-level entry point: a returned string, or an exception
that propagated out of `generate_response`. -/
inductive GenResult where
  | ok (s : String)
  | raised (msg : String)
deriving Repr, DecidableEq

/-- `response.content[0].text`: raises IndexError on an empty content list
and AttributeError when the first block is a tool-use block. -/
def firstText : List ContentBlock → ExecOutcome
  | [] => ExecOutcome.exn "list index out of range"
  | ContentBlock.text s :: _ => ExecOutcome.ok s
  | ContentBlock.toolUse _ _ _ :: _ =>
      ExecOutcome.exn "ToolUseBlock object has no attribute text"

/-- The per-round tool loop of `ai_generator.py` (lines 176-193): walk the
content blocks in order, execute each tool-use block, collect one
`tool_result` per executed call, stopping at the first raising call with its
exception message. -/
def runToolCallsRes (exec : ToolExec) : List ContentBlock → Except String (List ToolResult)
  | [] => Except.ok []
  | ContentBlock.text _ :: rest => runToolCallsRes exec rest
  | ContentBlock.toolUse n inp bid :: rest =>
    match exec n inp with
    | ExecOutcome.exn e => Except.error e
    | ExecOutcome.ok r =>
      match runToolCallsRes exec rest with
      | Except.error e => Except.error e
      | Except.ok rs => Except.ok (⟨bid, r⟩ :: rs)

/-- The tool invocations actually executed by the per-round tool loop, in
execution order: every tool-use block up to and including the first raising
one; blocks after a raising call are never executed. -/
def runToolCallsLog (exec : ToolExec) : List ContentBlock → List (String × String)
  | [] => []
  | ContentBlock.text _ :: rest => runToolCallsLog exec rest
  | ContentBlock.toolUse n inp _ :: rest =>
    match exec n inp with
    | ExecOutcome.exn _ => [(n, inp)]
    | ExecOutcome.ok _ => (n, inp) :: runToolCallsLog exec rest

/-- Static system prompt of `AIGenerator` (content irrelevant to the control
flow; kept as an opaque constant string). -/
def SYSTEM_PROMPT : String :=
  "You are an AI assistant specialized in course materials and educational content with access to comprehensive search tools for course information."

/-- The conversation after a tool round: the assistant's tool-use turn is
always appended; the combined tool-results turn only when at least one tool
result was collected (lines 173 and 196-197). -/
def nextMessages (messages : List Message) (content : List ContentBlock)
    (toolResults : List ToolResult) : List Message :=
  let messages1 := messages ++ [⟨"assistant", MessageContent.blocks content⟩]
  if toolResults.isEmpty then messages1
  else messages1 ++ [⟨"user", MessageContent.toolResults toolResults⟩]

/-- The body of `_execute_sequential_rounds`' `for round_number in
range(1, max_rounds + 1)` loop (lines 153-214), as a recursion on the number
of remaining iterations. Every branch of the loop body is wrapped in
`try/except` returning an `Error in round N` string, except the inner tool
loop whose failure returns a `Tool execution failed` string. -/
def seqRoundsGo (client : ModelClient) (exec : ToolExec) (maxRounds : Nat) :
    Nat → Nat → List Message → Nat → String × Trace
  | 0, _, _, _ => ("Maximum rounds completed without final response.", ⟨[], []⟩)
  | Nat.succ remaining, roundNumber, messages, idx =>
    match client idx with
    | ModelOutcome.exn e =>
        ("Error in round " ++ toString roundNumber ++ ": " ++ e, ⟨[true], []⟩)
    | ModelOutcome.ok resp =>
      if resp.stop_reason ≠ "tool_use" then
        match firstText resp.content with
        | ExecOutcome.ok t => (t, ⟨[true], []⟩)
        | ExecOutcome.exn e =>
            ("Error in round " ++ toString roundNumber ++ ": " ++ e, ⟨[true], []⟩)
      else
        match runToolCallsRes exec resp.content with
        | Except.error e =>
            ("Tool execution failed: " ++ e,
             ⟨[true], runToolCallsLog exec resp.content⟩)
        | Except.ok toolResults =>
          if maxRounds ≤ roundNumber then
            match client (idx + 1) with
            | ModelOutcome.exn e =>
                ("Error in round " ++ toString roundNumber ++ ": " ++ e,
                 ⟨[true, false], runToolCallsLog exec resp.content⟩)
            | ModelOutcome.ok fr =>
              match firstText fr.content with
              | ExecOutcome.ok t =>
                  (t, ⟨[true, false], runToolCallsLog exec resp.content⟩)
              | ExecOutcome.exn e =>
                  ("Error in round " ++ toString roundNumber ++ ": " ++ e,
                   ⟨[true, false], runToolCallsLog exec resp.content⟩)
          else
            let r2 := seqRoundsGo client exec maxRounds remaining
              (roundNumber + 1) (nextMessages messages resp.content toolResults)
              (idx + 1)
            (r2.1, ⟨true :: r2.2.modelCalls,
                    runToolCallsLog exec resp.content ++ r2.2.toolCalls⟩)

/-- `AIGenerator._execute_sequential_rounds`: seed the conversation with the
user query and run up to `maxRounds` rounds. -/
def execute_sequential_rounds (client : ModelClient) (exec : ToolExec)
    (query : String) (maxRounds : Nat) : String × Trace :=
  seqRoundsGo client exec maxRounds maxRounds 1
    [⟨"user", MessageContent.text query⟩] 0

/-- `AIGenerator._handle_tool_execution` (lines 216-265): execute the tool
calls of the initial response with no exception handler, then make one final
model call with no tool schemas attached. -/
def handle_tool_execution (client : ModelClient) (exec : ToolExec)
    (resp : ModelResponse) (idx : Nat) : GenResult × Trace :=
  match runToolCallsRes exec resp.content with
  | Except.error e => (GenResult.raised e, ⟨[], runToolCallsLog exec resp.content⟩)
  | Except.ok _ =>
    match client idx with
    | ModelOutcome.exn e =>
        (GenResult.raised e, ⟨[false], runToolCallsLog exec resp.content⟩)
    | ModelOutcome.ok fr =>
      match firstText fr.content with
      | ExecOutcome.ok t => (GenResult.ok t, ⟨[false], runToolCallsLog exec resp.content⟩)
      | ExecOutcome.exn e =>
          (GenResult.raised e, ⟨[false], runToolCallsLog exec resp.content⟩)

/-- `AIGenerator._execute_single_round` (lines 92-127): one model call, with
tool schemas attached exactly when `tools` is truthy; on a tool-use stop
reason with a tool manager present, delegate to `_handle_tool_execution`.
No exception handler: a raising call propagates. -/
def execute_single_round (client : ModelClient) (exec : ToolExec)
    (toolsGiven managerGiven : Bool) : GenResult × Trace :=
  match client 0 with
  | ModelOutcome.exn e => (GenResult.raised e, ⟨[toolsGiven], []⟩)
  | ModelOutcome.ok resp =>
    if resp.stop_reason = "tool_use" ∧ managerGiven = true then
      let r2 := handle_tool_execution client exec resp 1
      (r2.1, ⟨toolsGiven :: r2.2.modelCalls, r2.2.toolCalls⟩)
    else
      match firstText resp.content with
      | ExecOutcome.ok t => (GenResult.ok t, ⟨[toolsGiven], []⟩)
      | ExecOutcome.exn e => (GenResult.raised e, ⟨[toolsGiven], []⟩)

/-- `AIGenerator.generate_response` (lines 54-90): build the system content,
take the sequential multi-round path when tools, a tool manager and a round
budget above 1 are all present, and otherwise fall back to the single-round
path. `toolsGiven`/`managerGiven` model the truthiness of the `tools` and
`tool_manager` arguments. -/
def generate_response (client : ModelClient) (exec : ToolExec)
    (query : String) (conversation_history : String)
    (toolsGiven managerGiven : Bool) (max_rounds : Nat) : GenResult × Trace :=
  let _system_content := if conversation_history ≠ "" then
      SYSTEM_PROMPT ++ "\n\nPrevious conversation:\n" ++ conversation_history
    else SYSTEM_PROMPT
  if toolsGiven = true ∧ managerGiven = true ∧ 1 < max_rounds then
    let r := execute_sequential_rounds client exec query max_rounds
    (GenResult.ok r.1, r.2)
  else
    execute_single_round client exec toolsGiven managerGiven

/-- Python `str.lower()`. -/
def pyLower (s : String) : String := String.mk (s.data.map Char.toLower)

/-- Python `sub in hay` substring containment. -/
def strContains (hay sub : String) : Bool := decide (sub.data <:+: hay.data)

/-- Python `s.startswith(pre)`. -/
def pyStartsWith (s pre : String) : Bool := decide (pre.data <+: s.data)

/-- Python `s.strip()`: drop leading and trailing whitespace. -/
def pyStrip (s : String) : String :=
  String.mk (((s.data.dropWhile Char.isWhitespace).reverse.dropWhile Char.isWhitespace).reverse)

/-- Helper for `pySplit`: walk the characters, accumulating the current
token (reversed); whitespace ends a token, runs of whitespace produce no
empty tokens. -/
def pySplitGo : List Char → List Char → List String
  | [], acc => if acc.isEmpty then [] else [String.mk acc.reverse]
  | c :: rest, acc =>
    if c.isWhitespace then
      if acc.isEmpty then pySplitGo rest []
      else String.mk acc.reverse :: pySplitGo rest []
    else pySplitGo rest (c :: acc)

/-- Python `s.split()` with no argument: split on whitespace runs, never
returning empty tokens. -/
def pySplit (s : String) : List String := pySplitGo s.data []

/-- Python `", ".join(xs)`-style joining. -/
def joinWith (sep : String) : List String → String
  | [] => ""
  | [x] => x
  | x :: y :: rest => x ++ sep ++ joinWith sep (y :: rest)

/-- A UI attribution entry: display text plus an optional deep link. -/
structure SourceObj where
  text : String
  link : Option String
deriving Repr, DecidableEq

/-- The metadata map attached to one content hit. -/
structure Meta where
  course_title : Option String
  lesson_number : Option Int
deriving Repr, DecidableEq

/-- A search result set from the vector index: parallel documents and
metadata, or an error marker. -/
structure SearchResultsM where
  documents : List String
  metadata : List Meta
  error : Option String
deriving Repr, DecidableEq

/-- Modelled from the spec: `SearchResults.is_empty` of `vector_store.py`,
which is not under src/; spec section 3 defines "empty" as the parallel
sequences being zero-length (the error marker is checked separately before
this predicate is consulted). -/
def SearchResultsM.is_empty (r : SearchResultsM) : Bool :=
  r.documents.isEmpty && r.metadata.isEmpty

/-- Outcome of `store.get_lesson_link`: a link (or None), or a raised
exception. -/
inductive LinkOutcome where
  | ok (link : Option String)
  | exn (msg : String)
deriving Repr, DecidableEq

/-- The vector store as seen by the tools: `search` and `get_lesson_link`
are black-box capabilities (spec section 1). -/
structure VectorStoreM where
  search : String → Option String → Option Int → SearchResultsM
  get_lesson_link : String → Int → LinkOutcome

/-- Python truthiness of an optional string (None and "" are falsy). -/
def truthyStr : Option String → Bool
  | none => false
  | some s => !(s == "")

/-- Python truthiness of an optional integer (None and 0 are falsy). -/
def truthyInt : Option Int → Bool
  | none => false
  | some n => !(n == 0)

/-- The loop body of `CourseSearchTool._format_results` (lines 97-124): one
formatted block and one source entry per (document, metadata) pair; lesson
link lookup failures are swallowed and degrade to a missing link. -/
def formatEntries (store : VectorStoreM) : List (String × Meta) → List String × List SourceObj
  | [] => ([], [])
  | (doc, meta) :: rest =>
    let course_title := meta.course_title.getD "unknown"
    let lessonTag := match meta.lesson_number with
      | some n => " - Lesson " ++ toString n
      | none => ""
    let header := "[" ++ course_title ++ lessonTag ++ "]"
    let source_text := course_title ++ lessonTag
    let link := match meta.lesson_number with
      | none => none
      | some n =>
        match store.get_lesson_link course_title n with
        | LinkOutcome.exn _ => none
        | LinkOutcome.ok none => none
        | LinkOutcome.ok (some l) => if l == "" then none else some l
    let r := formatEntries store rest
    ((header ++ "\n" ++ doc) :: r.1, ⟨source_text, link⟩ :: r.2)

/-- `CourseSearchTool._format_results` (lines 92-129): returns the joined
text and the new `last_sources` value (the sources list it assigns). -/
def format_results (store : VectorStoreM) (results : SearchResultsM) :
    String × List SourceObj :=
  let es := formatEntries store (results.documents.zip results.metadata)
  (joinWith "\n\n" es.1, es.2)

/-- `CourseSearchTool.execute` (lines 53-90), with the tool's `last_sources`
field passed and returned explicitly: the field is written only by
`_format_results` on the hits path. -/
def CourseSearchTool_execute (store : VectorStoreM) (last_sources : List SourceObj)
    (query : String) (course_name : Option String) (lesson_number : Option Int) :
    String × List SourceObj :=
  let results := store.search query course_name lesson_number
  match results.error with
  | some e => (e, last_sources)
  | none =>
    if results.is_empty then
      let filter_info :=
        (if truthyStr course_name then
            " in course \x27" ++ course_name.getD "" ++ "\x27" else "")
        ++ (if truthyInt lesson_number then
            " in lesson " ++ toString (lesson_number.getD 0) else "")
      ("No relevant content found" ++ filter_info ++ ".", last_sources)
    else
      format_results store results

/-- One lesson row of the catalog metadata. -/
structure LessonMeta where
  lesson_number : Option Int
  lesson_title : Option String
deriving Repr, DecidableEq

/-- One course row of the catalog metadata, as consumed by
`CourseOutlineTool` (titles are always present per the data model; the
course link may be absent or null). -/
structure CourseMeta where
  title : String
  course_link : Option String
  lessons : List LessonMeta
deriving Repr, DecidableEq

/-- Tier 1 of `_find_matching_course`: case-insensitive exact title match. -/
def titleExactMatch (query_lower : String) (c : CourseMeta) : Bool :=
  pyLower c.title == query_lower

/-- Tier 2: the lowercased query is a substring of the lowercased title. -/
def titleSubstrMatch (query_lower : String) (c : CourseMeta) : Bool :=
  strContains (pyLower c.title) query_lower

/-- Tier 3: the query and the title share a whole-word token. -/
def titleWordMatch (query_lower : String) (c : CourseMeta) : Bool :=
  (pySplit query_lower).any (fun w => (pySplit (pyLower c.title)).contains w)

/-- `CourseOutlineTool._find_matching_course` (lines 186-209): three
sequential first-hit scans — exact, then substring, then word overlap. -/
def find_matching_course (query_title : String) (courses : List CourseMeta) :
    Option CourseMeta :=
  let query_lower := pyLower query_title
  match courses.find? (titleExactMatch query_lower) with
  | some c => some c
  | none =>
    match courses.find? (titleSubstrMatch query_lower) with
    | some c => some c
    | none => courses.find? (titleWordMatch query_lower)

/-- The link-validity check of `_format_course_outline` (lines 226-231):
truthy, not whitespace-only, not a sentinel string, and starting with an
http scheme. -/
def validLinkStr (s : String) : Bool :=
  !(s == "") && !(pyStrip s == "") &&
  !(s == "No link available") && !(s == "None") && !(s == "null") &&
  pyStartsWith s "http"

/-- The link-validity check applied to the stored course link; a missing
key defaults to the sentinel "No link available" and a null value is falsy,
so both fail the check. -/
def validCourseLink : Option String → Bool
  | none => false
  | some s => validLinkStr s

/-- Stable insertion of `a` after every element `b` with `le b a`, matching
Python's stable `sorted`. -/
def stableInsert {α : Type} (le : α → α → Bool) (a : α) : List α → List α
  | [] => [a]
  | b :: bs => if le b a then b :: stableInsert le a bs else a :: b :: bs

/-- Stable sort by a boolean comparison, matching Python's `sorted`. -/
def stableSortBy {α : Type} (le : α → α → Bool) (l : List α) : List α :=
  l.foldl (fun acc a => stableInsert le a acc) []

/-- Comparison used by `sorted(lessons, key=lambda x: x.get("lesson_number", 0))`. -/
def lessonLe (a b : LessonMeta) : Bool :=
  decide (a.lesson_number.getD 0 ≤ b.lesson_number.getD 0)

/-- The lesson-rendering loop of `_format_course_outline` (lines 240-243). -/
def lessonLines : List LessonMeta → String
  | [] => ""
  | l :: rest =>
    let numS := match l.lesson_number with
      | some n => toString n
      | none => "?"
    numS ++ ". " ++ l.lesson_title.getD "Untitled Lesson" ++ "\n" ++ lessonLines rest

/-- `CourseOutlineTool._format_course_outline` (lines 211-272): render the
outline and return the new `last_sources` value it assigns. -/
def format_course_outline (course : CourseMeta) : String × List SourceObj :=
  let title := course.title
  let linkOk := validCourseLink course.course_link
  let course_link := course.course_link.getD "No link available"
  let outline :=
    "**" ++ title ++ "**\n\n"
    ++ (if linkOk then
          ("Course Link: [" ++ title ++ "](" ++ course_link ++ ")") ++ "\n\n"
        else "Course Link: Available through the course platform" ++ "\n\n")
    ++ (if course.lessons.isEmpty then "No lesson information available."
        else "**Lessons:**\n" ++ lessonLines (stableSortBy lessonLe course.lessons))
  let sources :=
    if linkOk then [⟨"🔗 " ++ title ++ " - Course Link", some course_link⟩] else []
  (outline, sources)

/-- `CourseOutlineTool.execute` (lines 156-184), with the metadata fetch
modelled as an outcome (a raising fetch yields the error branch) and
`last_sources` passed explicitly: the field is written only when a course
matched and the outline was rendered. -/
def CourseOutlineTool_execute (metaOutcome : Except String (List CourseMeta))
    (last_sources : List SourceObj) (course_title : String) :
    String × List SourceObj :=
  match metaOutcome with
  | Except.error e => ("Error retrieving course outline: " ++ e, last_sources)
  | Except.ok all_courses =>
    if all_courses.isEmpty then ("No courses available in the system.", last_sources)
    else
      match find_matching_course course_title all_courses with
      | none =>
        ("No course found matching \x27" ++ course_title ++ "\x27. Available courses: "
          ++ joinWith ", " (all_courses.map (fun c => c.title)), last_sources)
      | some c => format_course_outline c

/-- A tool definition, as declared by each tool's `get_tool_definition`. -/
structure ToolDef where
  name : String
  description : String
deriving Repr, DecidableEq

/-- A registered tool as seen by `ToolManager`: its declared definition, its
`last_sources` field, and its `execute` entry point over an opaque input. -/
structure MTool where
  tooldef : ToolDef
  lastSources : List SourceObj
  run : String → String

/-- Python dict insertion: `d[k] = v` replaces the value of an existing key
in place, keeping the key's original position, and appends a new key. -/
def dictInsert {β : Type} (k : String) (v : β) : List (String × β) → List (String × β)
  | [] => [(k, v)]
  | (k₂, v₂) :: rest =>
    if k₂ = k then (k, v) :: rest else (k₂, v₂) :: dictInsert k v rest

/-- Python dict lookup `d[k]` / `k in d`. -/
def dictGet {β : Type} (k : String) : List (String × β) → Option β
  | [] => none
  | (k₂, v₂) :: rest => if k₂ = k then some v₂ else dictGet k rest

/-- `ToolManager`: an insertion-ordered mapping from declared name to tool. -/
structure ToolManagerM where
  tools : List (String × MTool)

/-- `ToolManager.register_tool` (lines 281-287): read the name from the
tool's own definition, raise when it is missing or empty, and store the tool
under that name with dict-replacement semantics. -/
def ToolManager_register_tool (mgr : ToolManagerM) (t : MTool) :
    Except String ToolManagerM :=
  let tool_name := t.tooldef.name
  if tool_name = "" then
    Except.error "Tool must have a \x27name\x27 in its definition"
  else Except.ok ⟨dictInsert tool_name t mgr.tools⟩

/-- `ToolManager.get_tool_definitions` (lines 289-291). -/
def ToolManager_get_tool_definitions (mgr : ToolManagerM) : List ToolDef :=
  mgr.tools.map (fun p => p.2.tooldef)

/-- `ToolManager.execute_tool` (lines 293-298): a "not found" string for
unknown names, otherwise dispatch to the registered tool. -/
def ToolManager_execute_tool (mgr : ToolManagerM) (tool_name : String)
    (input : String) : String :=
  match dictGet tool_name mgr.tools with
  | none => "Tool \x27" ++ tool_name ++ "\x27 not found"
  | some t => t.run input

/-- The accumulation loop of `ToolManager.get_last_sources` (lines 300-312):
extend by each tool's `last_sources` when that list is truthy (non-empty). -/
def collectSources : List (String × MTool) → List SourceObj
  | [] => []
  | p :: rest =>
    if p.2.lastSources.isEmpty then collectSources rest
    else p.2.lastSources ++ collectSources rest

/-- `ToolManager.get_last_sources`. -/
def ToolManager_get_last_sources (mgr : ToolManagerM) : List SourceObj :=
  collectSources mgr.tools

/-- `ToolManager.reset_sources` (lines 314-318): clear every tool's list. -/
def ToolManager_reset_sources (mgr : ToolManagerM) : ToolManagerM :=
  ⟨mgr.tools.map (fun p => (p.1, { p.2 with lastSources := [] }))⟩

lemma collectSources_eq_flatten (l : List (String × MTool)) :
    collectSources l = (l.map (fun p => p.2.lastSources)).flatten := by
  induction l with
  | nil => rfl
  | cons p rest ih =>
    by_cases h : p.2.lastSources.isEmpty
    · simp [collectSources, h, ih, List.isEmpty_iff.mp h]
    · simp [collectSources, h, ih]

lemma collectSources_reset (l : List (String × MTool)) :
    collectSources (l.map (fun p => (p.1, { p.2 with lastSources := [] }))) = [] := by
  induction l with
  | nil => rfl
  | cons p rest ih => simpa [collectSources] using ih

/-- C8: for every registry state, `get_last_sources` returns exactly the
concatenation, in registration order, of every registered tool's recorded
`last_sources` list (tools with an empty list contributing nothing), and
immediately after `reset_sources` this concatenation is the empty list. -/
theorem c8_get_last_sources_concatenation (mgr : ToolManagerM) :
    ToolManager_get_last_sources mgr
      = (mgr.tools.map (fun p => p.2.lastSources)).flatten ∧
    ToolManager_get_last_sources (ToolManager_reset_sources mgr) = [] := by
  refine ⟨collectSources_eq_flatten mgr.tools, ?_⟩
  simpa [ToolManager_get_last_sources, ToolManager_reset_sources] using
    collectSources_reset mgr.tools

lemma dictInsert_dictInsert_same {β : Type} (n : String) (t₁ t₂ : β)
    (l : List (String × β)) :
    dictInsert n t₂ (dictInsert n t₁ l) = dictInsert n t₂ l := by
  induction l with
  | nil => simp [dictInsert]
  | cons p rest ih =>
    obtain ⟨k₂, v₂⟩ := p
    by_cases h : k₂ = n
    · simp [dictInsert, h]
    · simp [dictInsert, h, ih]

lemma dictGet_dictInsert_self {β : Type} (k : String) (v : β)
    (l : List (String × β)) :
    dictGet k (dictInsert k v l) = some v := by
  induction l with
  | nil => simp [dictInsert, dictGet]
  | cons p rest ih =>
    obtain ⟨k₂, v₂⟩ := p
    by_cases h : k₂ = k
    · simp [dictInsert, dictGet, h]
    · simp [dictInsert, dictGet, h, ih]

lemma defs_filter_nil (n : String) (l : List (String × MTool))
    (h : ∀ p ∈ l, p.2.tooldef.name ≠ n) :
    ((l.map (fun p => p.2.tooldef)).filter (fun d => d.name == n)) = [] := by
  induction l with
  | nil => rfl
  | cons p rest ih =>
    have h₁ : p.2.tooldef.name ≠ n := h p (by simp)
    have h₂ : ∀ q ∈ rest, q.2.tooldef.name ≠ n := fun q hq => h q (by simp [hq])
    have hb : (p.2.tooldef.name == n) = false := by simp [h₁]
    simp [List.filter, hb, ih h₂]

lemma defs_filter_insert (n : String) (t : MTool) (l : List (String × MTool))
    (halign : ∀ p ∈ l, p.2.tooldef.name = p.1)
    (hnodup : (l.map Prod.fst).Nodup)
    (ht : t.tooldef.name = n) :
    (((dictInsert n t l).map (fun p => p.2.tooldef)).filter (fun d => d.name == n))
      = [t.tooldef] := by
  induction l with
  | nil => simp [dictInsert, List.filter, ht]
  | cons p rest ih =>
    obtain ⟨k₂, v₂⟩ := p
    by_cases h : k₂ = n
    · subst h
      have hrest : ∀ q ∈ rest, q.2.tooldef.name ≠ k₂ := by
        intro q hq
        have hk : q.1 ∈ rest.map Prod.fst := List.mem_map_of_mem _ hq
        have hne : q.1 ≠ k₂ := by
          intro hEq
          have hcons := List.nodup_cons.mp
            (show (k₂ :: rest.map Prod.fst).Nodup from hnodup)
          exact hcons.1 (hEq ▸ hk)
        rw [halign q (by simp [hq])]
        exact hne
      simp [dictInsert, List.filter, ht, defs_filter_nil _ _ hrest]
    · have halign₂ : ∀ q ∈ rest, q.2.tooldef.name = q.1 := by
        intro q hq; exact halign q (by simp [hq])
      have hnodup₂ : (rest.map Prod.fst).Nodup := by
        have hcons := List.nodup_cons.mp
          (show (k₂ :: rest.map Prod.fst).Nodup from hnodup)
        exact hcons.2
      have hname : v₂.tooldef.name = k₂ := halign (k₂, v₂) (by simp)
      simp [dictInsert, h, List.filter, hname, ih halign₂ hnodup₂]

/-- C9: registering a tool whose schema declares a name already held by a
previously registered tool silently replaces the earlier tool: both
registrations succeed without error, `execute_tool` with that name
dispatches to the later tool, and `get_tool_definitions` holds exactly one
definition for that name, the later tool's. -/
theorem c9_register_duplicate_replaces (mgr : ToolManagerM) (t₁ t₂ : MTool)
    (n inp : String)
    (halign : ∀ p ∈ mgr.tools, p.2.tooldef.name = p.1)
    (hnodup : (mgr.tools.map Prod.fst).Nodup)
    (h₁ : t₁.tooldef.name = n) (h₂ : t₂.tooldef.name = n) (hn : n ≠ "") :
    ∃ mgr₁ mgr₂,
      ToolManager_register_tool mgr t₁ = Except.ok mgr₁ ∧
      ToolManager_register_tool mgr₁ t₂ = Except.ok mgr₂ ∧
      ToolManager_execute_tool mgr₂ n inp = t₂.run inp ∧
      ((ToolManager_get_tool_definitions mgr₂).filter (fun d => d.name == n))
        = [t₂.tooldef] := by
  refine ⟨⟨dictInsert n t₁ mgr.tools⟩, ⟨dictInsert n t₂ (dictInsert n t₁ mgr.tools)⟩,
    ?_, ?_, ?_, ?_⟩
  · simp [ToolManager_register_tool, h₁, hn]
  · simp [ToolManager_register_tool, h₂, hn]
  · rw [ToolManager_execute_tool]
    rw [dictInsert_dictInsert_same, dictGet_dictInsert_self]
  · rw [ToolManager_get_tool_definitions]
    rw [dictInsert_dictInsert_same]
    exact defs_filter_insert n t₂ mgr.tools halign hnodup h₂

/-- Concrete tools used by witnesses: an earlier and a later tool sharing the
declared name "search_course_content". -/
def wToolA : MTool :=
  ⟨⟨"search_course_content", "first registration"⟩, [], fun _ => "A"⟩

/-- The replacing tool of the C9 witness. -/
def wToolB : MTool :=
  ⟨⟨"search_course_content", "second registration"⟩, [], fun _ => "B"⟩

/-- Witness for C9 at a concrete registry. -/
theorem c9_register_duplicate_replaces_witness :
    ∃ mgr₁ mgr₂,
      ToolManager_register_tool ⟨[]⟩ wToolA = Except.ok mgr₁ ∧
      ToolManager_register_tool mgr₁ wToolB = Except.ok mgr₂ ∧
      ToolManager_execute_tool mgr₂ "search_course_content" "q" = wToolB.run "q" ∧
      ((ToolManager_get_tool_definitions mgr₂).filter
          (fun d => d.name == "search_course_content")) = [wToolB.tooldef] :=
  c9_register_duplicate_replaces ⟨[]⟩ wToolA wToolB "search_course_content" "q"
    (by intro p hp; simp at hp) (by simp) rfl rfl (by decide)

lemma strContains_of_data_infix (hay sub : String) (h : sub.data <:+: hay.data) :
    strContains hay sub = true := by
  simp [strContains, h]

lemma strContains_append_mid4 (pre mid ex post : String) :
    strContains (pre ++ (mid ++ ex) ++ post) mid = true := by
  apply strContains_of_data_infix
  refine ⟨pre.data, ex.data ++ post.data, ?_⟩
  simp [String.data_append]

/-- C7: for every matched course, the rendered outline shows a
`Course Link` line with the stored link exactly when that link passes the
validity check (starts with http, not a placeholder); otherwise the outline
carries the generic fallback line, is identical to the outline of the same
course with no stored link at all, and the assigned `last_sources` holds one
entry referencing the link when the check passed and is empty otherwise. -/
theorem c7_outline_link_gating (ct : String) (all : List CourseMeta)
    (ls : List SourceObj) (c : CourseMeta)
    (hfind : find_matching_course ct all = some c) :
    CourseOutlineTool_execute (Except.ok all) ls ct = format_course_outline c ∧
    ((∀ s, c.course_link = some s → validLinkStr s = true →
      strContains (format_course_outline c).1
          ("Course Link: [" ++ c.title ++ "](" ++ s ++ ")") = true ∧
      (format_course_outline c).2
        = [⟨"🔗 " ++ c.title ++ " - Course Link", some s⟩]) ∧
    (validCourseLink c.course_link = false →
      strContains (format_course_outline c).1
          "Course Link: Available through the course platform" = true ∧
      (format_course_outline c).2 = [] ∧
      (format_course_outline c).1
        = (format_course_outline ⟨c.title, none, c.lessons⟩).1)) := by
  refine ⟨?_, ?_, ?_⟩
  · cases all with
    | nil => simp [find_matching_course] at hfind
    | cons a rest => simp [CourseOutlineTool_execute, hfind]
  · intro s hs hv
    have hv₂ : validCourseLink (some s) = true := by
      simpa [validCourseLink] using hv
    constructor
    · rw [format_course_outline]
      simp only [hs, Option.getD_some, hv₂, eq_self_iff_true, if_true]
      exact strContains_append_mid4 _ _ _ _
    · rw [format_course_outline]
      simp [hs, hv₂]
  · intro hv
    refine ⟨?_, ?_, ?_⟩
    · rw [format_course_outline]
      simp only [hv, Bool.false_eq_true, if_false]
      exact strContains_append_mid4 _ _ _ _
    · rw [format_course_outline]
      simp [hv]
    · have hnone : validCourseLink (none : Option String) = false := rfl
      rw [format_course_outline, format_course_outline]
      simp only [hv, hnone, Bool.false_eq_true, if_false]

/-- The sample course of the spec's testable-properties section, with its
lessons stored out of order. -/
def wCourse : CourseMeta :=
  ⟨"Sample Course", some "https://example.com/course",
   [⟨some 2, some "Advanced Topics"⟩, ⟨some 1, some "Introduction"⟩]⟩

/-- Witness for C7 at a concrete catalog: the valid stored link is surfaced
in the outline and recorded as the single source entry. -/
theorem c7_outline_link_gating_witness :
    CourseOutlineTool_execute (Except.ok [wCourse]) [] "Sample Course"
        = format_course_outline wCourse ∧
    strContains (format_course_outline wCourse).1
        ("Course Link: [" ++ wCourse.title ++ "]("
          ++ "https://example.com/course" ++ ")") = true ∧
    (format_course_outline wCourse).2
        = [⟨"🔗 " ++ wCourse.title ++ " - Course Link",
            some "https://example.com/course"⟩] := by
  have h := c7_outline_link_gating "Sample Course" [wCourse] [] wCourse (by decide)
  exact ⟨h.1, (h.2.1 "https://example.com/course" rfl (by decide)).1,
    (h.2.1 "https://example.com/course" rfl (by decide)).2⟩

/-- C6: course resolution is tiered and stops at the first tier with a hit —
case-insensitive exact title match, then substring containment of the
lowercased query, then a shared whole-word token; with no hit in any tier no
course is returned. -/
theorem c6_tiered_course_resolution (q : String) (courses : List CourseMeta) :
    ((∃ c ∈ courses, titleExactMatch (pyLower q) c = true) →
      ∃ c, find_matching_course q courses = some c ∧
        titleExactMatch (pyLower q) c = true) ∧
    ((∀ c ∈ courses, titleExactMatch (pyLower q) c = false) →
      (∃ c ∈ courses, titleSubstrMatch (pyLower q) c = true) →
      ∃ c, find_matching_course q courses = some c ∧
        titleSubstrMatch (pyLower q) c = true) ∧
    ((∀ c ∈ courses, titleExactMatch (pyLower q) c = false) →
      (∀ c ∈ courses, titleSubstrMatch (pyLower q) c = false) →
      (∃ c ∈ courses, titleWordMatch (pyLower q) c = true) →
      ∃ c, find_matching_course q courses = some c ∧
        titleWordMatch (pyLower q) c = true) ∧
    ((∀ c ∈ courses, titleExactMatch (pyLower q) c = false) →
      (∀ c ∈ courses, titleSubstrMatch (pyLower q) c = false) →
      (∀ c ∈ courses, titleWordMatch (pyLower q) c = false) →
      find_matching_course q courses = none) := by
  refine ⟨?_, ?_, ?_, ?_⟩
  · intro hex
    have h₁ : (courses.find? (titleExactMatch (pyLower q))).isSome = true :=
      List.find?_isSome.mpr (by simpa using hex)
    obtain ⟨c, hc⟩ := Option.isSome_iff_exists.mp h₁
    exact ⟨c, by rw [find_matching_course, hc], List.find?_some hc⟩
  · intro hno hex
    have h₁ : courses.find? (titleExactMatch (pyLower q)) = none :=
      List.find?_eq_none.mpr (by intro x hx; simp [hno x hx])
    have h₂ : (courses.find? (titleSubstrMatch (pyLower q))).isSome = true :=
      List.find?_isSome.mpr (by simpa using hex)
    obtain ⟨c, hc⟩ := Option.isSome_iff_exists.mp h₂
    exact ⟨c, by rw [find_matching_course, h₁, hc], List.find?_some hc⟩
  · intro hno₁ hno₂ hex
    have h₁ : courses.find? (titleExactMatch (pyLower q)) = none :=
      List.find?_eq_none.mpr (by intro x hx; simp [hno₁ x hx])
    have h₂ : courses.find? (titleSubstrMatch (pyLower q)) = none :=
      List.find?_eq_none.mpr (by intro x hx; simp [hno₂ x hx])
    have h₃ : (courses.find? (titleWordMatch (pyLower q))).isSome = true :=
      List.find?_isSome.mpr (by simpa using hex)
    obtain ⟨c, hc⟩ := Option.isSome_iff_exists.mp h₃
    exact ⟨c, by rw [find_matching_course, h₁, h₂, hc], List.find?_some hc⟩
  · intro hno₁ hno₂ hno₃
    have h₁ : courses.find? (titleExactMatch (pyLower q)) = none :=
      List.find?_eq_none.mpr (by intro x hx; simp [hno₁ x hx])
    have h₂ : courses.find? (titleSubstrMatch (pyLower q)) = none :=
      List.find?_eq_none.mpr (by intro x hx; simp [hno₂ x hx])
    have h₃ : courses.find? (titleWordMatch (pyLower q)) = none :=
      List.find?_eq_none.mpr (by intro x hx; simp [hno₃ x hx])
    rw [find_matching_course, h₁, h₂, h₃]

/-- Witness for C6: a query hitting tier 2 (substring) after tier 1 misses. -/
theorem c6_tiered_course_resolution_witness :
    ∃ c, find_matching_course "MCP" [⟨"Introduction to MCP", none, []⟩] = some c ∧
      titleSubstrMatch (pyLower "MCP") c = true :=
  (c6_tiered_course_resolution "MCP" [⟨"Introduction to MCP", none, []⟩]).2.1
    (by decide) (by decide)

/-- A store whose search always reports zero hits and no error. -/
def wStoreEmpty : VectorStoreM :=
  ⟨fun _ _ _ => ⟨[], [], none⟩, fun _ _ => LinkOutcome.ok none⟩

/-- A store whose search always returns one hit for "Test Course" lesson 1. -/
def wStoreHit : VectorStoreM :=
  ⟨fun _ _ _ => ⟨["chunk one"], [⟨some "Test Course", some 1⟩], none⟩,
   fun _ _ => LinkOutcome.ok (some "https://example.com/lesson1")⟩

/-- C5 (failing input): `CourseSearchTool.execute` writes `last_sources`
only on the hits path, so a call whose result set is empty leaves the entries
recorded by a prior call in place instead of replacing them — contradicting
the repository's own test `test_sources_reset_between_searches`, which runs a
hit search followed by an empty search and asserts `len(last_sources) == 0`. -/
theorem c5_stale_sources_on_empty_search :
    (CourseSearchTool_execute wStoreHit [] "first query" none none).2
      = [⟨"Test Course - Lesson 1", some "https://example.com/lesson1"⟩] ∧
    (CourseSearchTool_execute wStoreEmpty
        (CourseSearchTool_execute wStoreHit [] "first query" none none).2
        "second query" none none).2
      = [⟨"Test Course - Lesson 1", some "https://example.com/lesson1"⟩] ∧
    (CourseSearchTool_execute wStoreEmpty
        (CourseSearchTool_execute wStoreHit [] "first query" none none).2
        "second query" none none).1
      = "No relevant content found." := by
  refine ⟨by decide, by decide, by decide⟩

/-- C10: when `lesson_number` is `0` or `course_name` is the empty string,
the empty-result message omits that filter from its description even though
the filter was passed to the index verbatim, because only truthy filter
values are named. -/
theorem c10_falsy_filters_omitted_from_message (store : VectorStoreM)
    (q cn : String) (n : Int) (ls : List SourceObj)
    (hcn : cn ≠ "") (hn : n ≠ 0)
    (h₁e : (store.search q (some cn) (some 0)).error = none)
    (h₁m : (store.search q (some cn) (some 0)).is_empty = true)
    (h₂e : (store.search q (some "") (some n)).error = none)
    (h₂m : (store.search q (some "") (some n)).is_empty = true) :
    (CourseSearchTool_execute store ls q (some cn) (some 0)).1
      = "No relevant content found" ++ (" in course \x27" ++ cn ++ "\x27") ++ "." ∧
    (CourseSearchTool_execute store ls q (some "") (some n)).1
      = "No relevant content found" ++ (" in lesson " ++ toString n) ++ "." := by
  constructor
  · rw [CourseSearchTool_execute]
    simp [h₁e, h₁m, truthyStr, truthyInt, hcn, String.append_assoc]
  · rw [CourseSearchTool_execute]
    simp [h₂e, h₂m, truthyStr, truthyInt, hn, String.append_assoc]

/-- Witness for C10: zero hits with `course_name="Nonexistent"` and
`lesson_number=0` names only the course filter; zero hits with
`course_name=""` and `lesson_number=5` names only the lesson filter. -/
theorem c10_falsy_filters_omitted_witness :
    (CourseSearchTool_execute wStoreEmpty [] "q" (some "Nonexistent") (some 0)).1
      = "No relevant content found in course \x27Nonexistent\x27." ∧
    (CourseSearchTool_execute wStoreEmpty [] "q" (some "") (some 5)).1
      = "No relevant content found in lesson 5." := by
  have h := c10_falsy_filters_omitted_from_message wStoreEmpty "q" "Nonexistent" 5 []
    (by decide) (by decide) rfl rfl rfl rfl
  exact ⟨by rw [h.1]; decide, by rw [h.2]; decide⟩

lemma runToolCallsRes_ok (exec : ToolExec)
    (hx : ∀ n inp, ∃ s, exec n inp = ExecOutcome.ok s) :
    ∀ blocks, ∃ rs, runToolCallsRes exec blocks = Except.ok rs := by
  intro blocks
  induction blocks with
  | nil => exact ⟨[], rfl⟩
  | cons b rest ih =>
    cases b with
    | text s => simpa [runToolCallsRes] using ih
    | toolUse n inp bid =>
      obtain ⟨s, hs⟩ := hx n inp
      obtain ⟨rs, hrs⟩ := ih
      exact ⟨⟨bid, s⟩ :: rs, by rw [runToolCallsRes]; rw [hs, hrs]⟩

lemma seqRoundsGo_modelCalls_shape (client : ModelClient) (exec : ToolExec)
    (mr : Nat) :
    ∀ (remaining rn : Nat) (msgs : List Message) (idx : Nat),
    ∃ k ≤ remaining,
      (seqRoundsGo client exec mr remaining rn msgs idx).2.modelCalls
          = List.replicate k true ∨
      (seqRoundsGo client exec mr remaining rn msgs idx).2.modelCalls
          = List.replicate k true ++ [false] := by
  intro remaining
  induction remaining with
  | zero =>
    intro rn msgs idx
    exact ⟨0, Nat.le_refl 0, Or.inl rfl⟩
  | succ r ih =>
    intro rn msgs idx
    rw [seqRoundsGo]
    cases hcl : client idx with
    | exn e => exact ⟨1, by omega, Or.inl rfl⟩
    | ok resp =>
      simp only []
      by_cases hsr : resp.stop_reason ≠ "tool_use"
      · rw [if_pos hsr]
        cases firstText resp.content with
        | ok t => exact ⟨1, by omega, Or.inl rfl⟩
        | exn e => exact ⟨1, by omega, Or.inl rfl⟩
      · rw [if_neg hsr]
        cases hrt : runToolCallsRes exec resp.content with
        | error e => exact ⟨1, by omega, Or.inl rfl⟩
        | ok trs =>
          simp only []
          by_cases hlast : mr ≤ rn
          · rw [if_pos hlast]
            cases client (idx + 1) with
            | exn e => exact ⟨1, by omega, Or.inr rfl⟩
            | ok fr =>
              simp only []
              cases firstText fr.content with
              | ok t => exact ⟨1, by omega, Or.inr rfl⟩
              | exn e => exact ⟨1, by omega, Or.inr rfl⟩
          · rw [if_neg hlast]
            obtain ⟨k, hk, hshape⟩ :=
              ih (rn + 1) (nextMessages msgs resp.content trs) (idx + 1)
            refine ⟨k + 1, by omega, ?_⟩
            rcases hshape with hsh | hsh
            · left
              show true :: (seqRoundsGo client exec mr r (rn + 1)
                  (nextMessages msgs resp.content trs) (idx + 1)).2.modelCalls
                = List.replicate (k + 1) true
              rw [hsh, List.replicate_succ]
            · right
              show true :: (seqRoundsGo client exec mr r (rn + 1)
                  (nextMessages msgs resp.content trs) (idx + 1)).2.modelCalls
                = List.replicate (k + 1) true ++ [false]
              rw [hsh, List.replicate_succ, List.cons_append]

lemma seqRoundsGo_all_tool_use (client : ModelClient) (exec : ToolExec)
    (mr : Nat)
    (hc : ∀ i, ∃ r, client i = ModelOutcome.ok r ∧ r.stop_reason = "tool_use")
    (hx : ∀ n inp, ∃ s, exec n inp = ExecOutcome.ok s) :
    ∀ (remaining rn : Nat) (msgs : List Message) (idx : Nat),
    1 ≤ remaining → rn + remaining = mr + 1 →
    (seqRoundsGo client exec mr remaining rn msgs idx).2.modelCalls
      = List.replicate remaining true ++ [false] := by
  intro remaining
  induction remaining with
  | zero => intro rn msgs idx h1 _; omega
  | succ r ih =>
    intro rn msgs idx h1 h2
    obtain ⟨resp, hcl, hsr⟩ := hc idx
    obtain ⟨rs, hrs⟩ := runToolCallsRes_ok exec hx resp.content
    rw [seqRoundsGo, hcl]
    simp only []
    rw [if_neg (by simp [hsr])]
    rw [hrs]
    simp only []
    by_cases hlast : mr ≤ rn
    · rw [if_pos hlast]
      have hr0 : r = 0 := by omega
      subst hr0
      cases client (idx + 1) with
      | exn e => rfl
      | ok fr =>
        simp only []
        cases firstText fr.content with
        | ok t => rfl
        | exn e => rfl
    · rw [if_neg hlast]
      have hrec := ih (rn + 1) (nextMessages msgs resp.content rs) (idx + 1)
        (by omega) (by omega)
      show true :: (seqRoundsGo client exec mr r (rn + 1)
          (nextMessages msgs resp.content rs) (idx + 1)).2.modelCalls
        = List.replicate (r + 1) true ++ [false]
      rw [hrec, List.replicate_succ, List.cons_append]

lemma handle_tool_execution_shape (client : ModelClient) (exec : ToolExec)
    (resp : ModelResponse) (idx : Nat) :
    (handle_tool_execution client exec resp idx).2.modelCalls = [] ∨
    (handle_tool_execution client exec resp idx).2.modelCalls = [false] := by
  rw [handle_tool_execution]
  cases runToolCallsRes exec resp.content with
  | error e => exact Or.inl rfl
  | ok rs =>
    simp only []
    cases client idx with
    | exn e => exact Or.inr rfl
    | ok fr =>
      simp only []
      cases firstText fr.content with
      | ok t => exact Or.inr rfl
      | exn e => exact Or.inr rfl

lemma handle_tool_execution_modelCalls_ok (client : ModelClient) (exec : ToolExec)
    (resp : ModelResponse) (idx : Nat) (rs : List ToolResult)
    (hrs : runToolCallsRes exec resp.content = Except.ok rs) :
    (handle_tool_execution client exec resp idx).2.modelCalls = [false] := by
  rw [handle_tool_execution, hrs]
  simp only []
  cases client idx with
  | exn e => rfl
  | ok fr =>
    simp only []
    cases firstText fr.content with
    | ok t => rfl
    | exn e => rfl

lemma execute_single_round_shape (client : ModelClient) (exec : ToolExec)
    (tg mg : Bool) :
    (execute_single_round client exec tg mg).2.modelCalls = [tg] ∨
    (execute_single_round client exec tg mg).2.modelCalls = [tg, false] := by
  rw [execute_single_round]
  cases client 0 with
  | exn e => exact Or.inl rfl
  | ok resp =>
    simp only []
    by_cases hc : resp.stop_reason = "tool_use" ∧ mg = true
    · rw [if_pos hc]
      rcases handle_tool_execution_shape client exec resp 1 with hsh | hsh
      · left
        show tg :: (handle_tool_execution client exec resp 1).2.modelCalls = [tg]
        rw [hsh]
      · right
        show tg :: (handle_tool_execution client exec resp 1).2.modelCalls = [tg, false]
        rw [hsh]
    · rw [if_neg hc]
      cases firstText resp.content with
      | ok t => exact Or.inl rfl
      | exn e => exact Or.inl rfl

lemma execute_single_round_all_tool_use (client : ModelClient) (exec : ToolExec)
    (hc : ∀ i, ∃ r, client i = ModelOutcome.ok r ∧ r.stop_reason = "tool_use")
    (hx : ∀ n inp, ∃ s, exec n inp = ExecOutcome.ok s) :
    (execute_single_round client exec true true).2.modelCalls = [true, false] := by
  obtain ⟨resp, hcl, hsr⟩ := hc 0
  obtain ⟨rs, hrs⟩ := runToolCallsRes_ok exec hx resp.content
  rw [execute_single_round, hcl]
  simp only []
  rw [if_pos ⟨hsr, trivial⟩]
  show true :: (handle_tool_execution client exec resp 1).2.modelCalls = [true, false]
  rw [handle_tool_execution_modelCalls_ok client exec resp 1 rs hrs]

/-- C1: with tools and a tool manager supplied and round budget `B ≥ 1`,
every run of `generate_response` makes some number `k ≤ B` of tool-enabled
model calls, followed by at most one tools-disabled final call, so the total
number of model calls is at most `B + 1`; when every round's response
requests tool use and the tools execute without raising, the trace is
exactly `B` tool-enabled calls and one final call carrying no tool
schemas. -/
theorem c1_round_budget (client : ModelClient) (exec : ToolExec)
    (q h : String) (B : Nat) (hB : 1 ≤ B) :
    (∃ k ≤ B,
      (generate_response client exec q h true true B).2.modelCalls
          = List.replicate k true ∨
      (generate_response client exec q h true true B).2.modelCalls
          = List.replicate k true ++ [false]) ∧
    (generate_response client exec q h true true B).2.modelCalls.length ≤ B + 1 ∧
    ((∀ i, ∃ r, client i = ModelOutcome.ok r ∧ r.stop_reason = "tool_use") →
      (∀ n inp, ∃ s, exec n inp = ExecOutcome.ok s) →
      (generate_response client exec q h true true B).2.modelCalls
        = List.replicate B true ++ [false]) := by
  by_cases hB2 : 1 < B
  · have hgen : (generate_response client exec q h true true B).2
        = (seqRoundsGo client exec B B 1 [⟨"user", MessageContent.text q⟩] 0).2 := by
      rw [generate_response]
      simp only []
      rw [if_pos ⟨trivial, trivial, hB2⟩]
      rw [execute_sequential_rounds]
    rw [hgen]
    refine ⟨?_, ?_, ?_⟩
    · exact seqRoundsGo_modelCalls_shape client exec B B 1 _ 0
    · obtain ⟨k, hk, hsh⟩ := seqRoundsGo_modelCalls_shape client exec B B 1
        [⟨"user", MessageContent.text q⟩] 0
      rcases hsh with hsh | hsh
      · rw [hsh]; simp; omega
      · rw [hsh]; simp; omega
    · intro hc hx
      exact seqRoundsGo_all_tool_use client exec B hc hx B 1 _ 0 (by omega) (by omega)
  · have hB1 : B = 1 := by omega
    subst hB1
    have hgen : generate_response client exec q h true true 1
        = execute_single_round client exec true true := by
      rw [generate_response]
      simp only []
      rw [if_neg (by rintro ⟨-, -, hlt⟩; omega)]
    rw [hgen]
    refine ⟨?_, ?_, ?_⟩
    · rcases execute_single_round_shape client exec true true with hsh | hsh
      · exact ⟨1, Nat.le_refl 1, Or.inl (by rw [hsh]; rfl)⟩
      · exact ⟨1, Nat.le_refl 1, Or.inr (by rw [hsh]; rfl)⟩
    · rcases execute_single_round_shape client exec true true with hsh | hsh <;>
        rw [hsh] <;> simp
    · intro hc hx
      rw [execute_single_round_all_tool_use client exec hc hx]
      rfl

/-- A client that always requests one search tool call. -/
def wClientToolUse : ModelClient := fun _ =>
  ModelOutcome.ok ⟨"tool_use",
    [ContentBlock.toolUse "search_course_content" "q1" "toolu_01"]⟩

/-- A tool executor that always succeeds. -/
def wExecOk : ToolExec := fun _ _ => ExecOutcome.ok "tool output"

/-- Witness for C1: budget 2, every round requesting a tool — exactly two
tool-enabled calls and one tools-disabled final call. -/
theorem c1_round_budget_witness :
    (generate_response wClientToolUse wExecOk "q" "" true true 2).2.modelCalls
      = List.replicate 2 true ++ [false] :=
  (c1_round_budget wClientToolUse wExecOk "q" "" 2 (by decide)).2.2
    (fun _ => ⟨_, rfl, rfl⟩) (fun _ _ => ⟨"tool output", rfl⟩)

/-- The tool invocations declared by a list of content blocks, in order. -/
def toolLogOf : List ContentBlock → List (String × String)
  | [] => []
  | ContentBlock.text _ :: rest => toolLogOf rest
  | ContentBlock.toolUse n inp _ :: rest => (n, inp) :: toolLogOf rest

lemma runToolCallsRes_first_err (exec : ToolExec) (n inp bid e : String)
    (he : exec n inp = ExecOutcome.exn e) :
    ∀ (pre rest : List ContentBlock),
    (∀ b ∈ pre, ∀ n₂ i₂ b₂, b = ContentBlock.toolUse n₂ i₂ b₂ →
        ∃ s, exec n₂ i₂ = ExecOutcome.ok s) →
    runToolCallsRes exec (pre ++ ContentBlock.toolUse n inp bid :: rest)
      = Except.error e := by
  intro pre
  induction pre with
  | nil =>
    intro rest _
    simp only [List.nil_append, runToolCallsRes, he]
  | cons b pre₂ ih =>
    intro rest hpre
    cases b with
    | text s =>
      simp only [List.cons_append, runToolCallsRes]
      exact ih rest (fun b₃ hb => hpre b₃ (List.mem_cons_of_mem _ hb))
    | toolUse n₂ i₂ b₂ =>
      obtain ⟨s, hs⟩ := hpre _ (List.mem_cons_self _ _) n₂ i₂ b₂ rfl
      simp only [List.cons_append, runToolCallsRes, hs, List.append_eq,
        ih rest (fun b₃ hb => hpre b₃ (List.mem_cons_of_mem _ hb))]

lemma runToolCallsLog_first_err (exec : ToolExec) (n inp bid e : String)
    (he : exec n inp = ExecOutcome.exn e) :
    ∀ (pre rest : List ContentBlock),
    (∀ b ∈ pre, ∀ n₂ i₂ b₂, b = ContentBlock.toolUse n₂ i₂ b₂ →
        ∃ s, exec n₂ i₂ = ExecOutcome.ok s) →
    runToolCallsLog exec (pre ++ ContentBlock.toolUse n inp bid :: rest)
      = toolLogOf pre ++ [(n, inp)] := by
  intro pre
  induction pre with
  | nil =>
    intro rest _
    simp only [List.nil_append, runToolCallsLog, he, toolLogOf]
  | cons b pre₂ ih =>
    intro rest hpre
    cases b with
    | text s =>
      simp only [List.cons_append, runToolCallsLog, toolLogOf]
      exact ih rest (fun b₃ hb => hpre b₃ (List.mem_cons_of_mem _ hb))
    | toolUse n₂ i₂ b₂ =>
      obtain ⟨s, hs⟩ := hpre _ (List.mem_cons_self _ _) n₂ i₂ b₂ rfl
      simp only [List.cons_append, runToolCallsLog, hs, toolLogOf, List.append_eq,
        ih rest (fun b₃ hb => hpre b₃ (List.mem_cons_of_mem _ hb))]

lemma seqRoundsGo_tool_error (client : ModelClient) (exec : ToolExec)
    (mr remaining rn idx : Nat) (msgs : List Message) (resp : ModelResponse)
    (pre rest : List ContentBlock) (n inp bid e : String)
    (hcl : client idx = ModelOutcome.ok resp)
    (hsr : resp.stop_reason = "tool_use")
    (hct : resp.content = pre ++ ContentBlock.toolUse n inp bid :: rest)
    (hpre : ∀ b ∈ pre, ∀ n₂ i₂ b₂, b = ContentBlock.toolUse n₂ i₂ b₂ →
        ∃ s, exec n₂ i₂ = ExecOutcome.ok s)
    (he : exec n inp = ExecOutcome.exn e) :
    seqRoundsGo client exec mr (remaining + 1) rn msgs idx
      = ("Tool execution failed: " ++ e,
         ⟨[true], toolLogOf pre ++ [(n, inp)]⟩) := by
  rw [seqRoundsGo, hcl]
  simp only []
  rw [if_neg (by simp [hsr])]
  rw [hct]
  rw [runToolCallsRes_first_err exec n inp bid e he pre rest hpre]
  simp only []
  rw [runToolCallsLog_first_err exec n inp bid e he pre rest hpre]

/-- C2: if, during any tool-enabled round of the multi-round loop, a
requested tool's execution raises, the loop returns immediately with the
string `"Tool execution failed: "` followed by the exception's message; the
round makes no further model calls (so no later round runs), the tool calls
after the raising one in that round never execute, and `generate_response`
on the multi-round path surfaces exactly that string. -/
theorem c2_tool_exception_aborts_query (client : ModelClient) (exec : ToolExec)
    (mr remaining rn idx : Nat) (msgs : List Message) (resp : ModelResponse)
    (pre rest : List ContentBlock) (n inp bid e : String)
    (hcl : client idx = ModelOutcome.ok resp)
    (hsr : resp.stop_reason = "tool_use")
    (hct : resp.content = pre ++ ContentBlock.toolUse n inp bid :: rest)
    (hpre : ∀ b ∈ pre, ∀ n₂ i₂ b₂, b = ContentBlock.toolUse n₂ i₂ b₂ →
        ∃ s, exec n₂ i₂ = ExecOutcome.ok s)
    (he : exec n inp = ExecOutcome.exn e) :
    seqRoundsGo client exec mr (remaining + 1) rn msgs idx
      = ("Tool execution failed: " ++ e,
         ⟨[true], toolLogOf pre ++ [(n, inp)]⟩) ∧
    (∀ B q h₂, 2 ≤ B → idx = 0 →
      generate_response client exec q h₂ true true B
        = (GenResult.ok ("Tool execution failed: " ++ e),
           ⟨[true], toolLogOf pre ++ [(n, inp)]⟩)) := by
  refine ⟨seqRoundsGo_tool_error client exec mr remaining rn idx msgs resp
    pre rest n inp bid e hcl hsr hct hpre he, ?_⟩
  intro B q h₂ hB hidx
  subst hidx
  obtain ⟨B₂, rfl⟩ : ∃ B₂, B = B₂ + 1 := ⟨B - 1, by omega⟩
  rw [generate_response]
  simp only []
  rw [if_pos ⟨trivial, trivial, by omega⟩]
  rw [execute_sequential_rounds]
  rw [seqRoundsGo_tool_error client exec (B₂ + 1) B₂ 1 0
    [⟨"user", MessageContent.text q⟩] resp pre rest n inp bid e
    hcl hsr hct hpre he]

/-- A tool executor that always raises. -/
def wExecBoom : ToolExec := fun _ _ => ExecOutcome.exn "Database connection failed"

/-- Witness for C2 at a concrete failing round. -/
theorem c2_tool_exception_aborts_query_witness :
    seqRoundsGo wClientToolUse wExecBoom 2 2 1
        [⟨"user", MessageContent.text "Complex query"⟩] 0
      = ("Tool execution failed: " ++ "Database connection failed",
         ⟨[true], toolLogOf [] ++ [("search_course_content", "q1")]⟩) ∧
    (∀ B q h₂, 2 ≤ B → 0 = 0 →
      generate_response wClientToolUse wExecBoom q h₂ true true B
        = (GenResult.ok ("Tool execution failed: " ++ "Database connection failed"),
           ⟨[true], toolLogOf [] ++ [("search_course_content", "q1")]⟩)) :=
  c2_tool_exception_aborts_query wClientToolUse wExecBoom 2 1 1 0
    [⟨"user", MessageContent.text "Complex query"⟩]
    ⟨"tool_use", [ContentBlock.toolUse "search_course_content" "q1" "toolu_01"]⟩
    [] [] "search_course_content" "q1" "toolu_01" "Database connection failed"
    rfl rfl rfl (by simp) rfl

/-- A client whose every call raises. -/
def wClientRaises : ModelClient := fun _ => ModelOutcome.exn "API rate limit exceeded"

/-- C3 counterexample: on the single-round fallback path (here: no tools and
no registry), a model-call exception propagates out of `generate_response`
instead of being returned as a string, refuting the claim that the entry
point never raises for every input. -/
theorem c3_counterexample_single_round_raises :
    (generate_response wClientRaises wExecOk "q" "" false false 2).1
      = GenResult.raised "API rate limit exceeded" := rfl

/-- C3 (amended): whenever the multi-round path is taken (tools and a
registry supplied and round budget above 1), `generate_response` returns a
string and never propagates an exception; the single-round fallback path may
propagate. -/
theorem c3_multi_round_never_raises (client : ModelClient) (exec : ToolExec)
    (q h : String) (B : Nat) (hB : 1 < B) :
    ∃ s, (generate_response client exec q h true true B).1 = GenResult.ok s := by
  rw [generate_response]
  simp only []
  rw [if_pos ⟨trivial, trivial, hB⟩]
  exact ⟨_, rfl⟩

/-- Witness for the amended C3 at a concrete raising client. -/
theorem c3_multi_round_never_raises_witness :
    ∃ s, (generate_response wClientRaises wExecOk "q" "" true true 2).1
      = GenResult.ok s :=
  c3_multi_round_never_raises wClientRaises wExecOk "q" "" 2 (by decide)

/-- C4 counterexample: with round budget 0 but tools and a registry
supplied, the single-round fallback path makes two model calls (the first
reports tool use, then a tools-disabled follow-up call is made), refuting
"performs exactly one model call". -/
theorem c4_counterexample_budget_zero_two_calls :
    (generate_response wClientToolUse wExecOk "q" "" true true 0).2.modelCalls
      = [true, false] := rfl

/-- C4 (amended): when the round budget is at most 1, or tools, or the
registry are missing, `generate_response` skips the multi-round loop and
runs the single-round path; that path makes at most two model calls, makes
exactly one when no registry is supplied, and when the first call's response
does not trigger tool handling it returns that call's text after exactly one
model call. -/
theorem c4_single_round_path (client : ModelClient) (exec : ToolExec)
    (q h : String) (toolsG mgrG : Bool) (B : Nat)
    (hcond : ¬(toolsG = true ∧ mgrG = true ∧ 1 < B)) :
    generate_response client exec q h toolsG mgrG B
        = execute_single_round client exec toolsG mgrG ∧
    (generate_response client exec q h toolsG mgrG B).2.modelCalls.length ≤ 2 ∧
    (mgrG = false →
      (generate_response client exec q h toolsG mgrG B).2.modelCalls = [toolsG]) ∧
    (∀ r t, client 0 = ModelOutcome.ok r →
      ¬(r.stop_reason = "tool_use" ∧ mgrG = true) →
      firstText r.content = ExecOutcome.ok t →
      generate_response client exec q h toolsG mgrG B
        = (GenResult.ok t, ⟨[toolsG], []⟩)) := by
  have hgen : generate_response client exec q h toolsG mgrG B
      = execute_single_round client exec toolsG mgrG := by
    rw [generate_response]
    simp only []
    rw [if_neg ?hc]
    case hc =>
      intro hand
      exact hcond (by simpa using hand)
  refine ⟨hgen, ?_, ?_, ?_⟩
  · rw [hgen]
    rcases execute_single_round_shape client exec toolsG mgrG with hsh | hsh <;>
      rw [hsh] <;> simp
  · intro hmgr
    subst hmgr
    rw [hgen, execute_single_round]
    cases client 0 with
    | exn e => rfl
    | ok resp =>
      simp only []
      rw [if_neg (by rintro ⟨-, hft⟩; cases hft)]
      cases firstText resp.content with
      | ok t => rfl
      | exn e => rfl
  · intro r t hcl hnot hft
    rw [hgen, execute_single_round, hcl]
    simp only []
    rw [if_neg (by simpa using hnot)]
    rw [hft]

/-- A client that always answers directly without tools. -/
def wClientText : ModelClient := fun _ =>
  ModelOutcome.ok ⟨"end_turn", [ContentBlock.text "direct answer"]⟩

/-- Witness for the amended C4: budget 0 with a direct answer makes exactly
one model call and returns its text. -/
theorem c4_single_round_path_witness :
    generate_response wClientText wExecOk "q" "" true true 0
      = (GenResult.ok "direct answer", ⟨[true], []⟩) :=
  (c4_single_round_path wClientText wExecOk "q" "" true true 0
      (by rintro ⟨-, -, h⟩; omega)).2.2.2
    ⟨"end_turn", [ContentBlock.text "direct answer"]⟩ "direct answer"
    rfl (by rintro ⟨h₃, -⟩; exact absurd h₃ (by decide)) rfl
